import Mathlib

/-!
Shallow embedding of the mdtrans dual-pass markdown transformation engine
(src/transform.rs) and verification of its specification.

The pest grammar (`Rule` enum source and `MarkdownParser::parse`) is not part
of the provided sources; node kinds and the parse trees of concrete inputs are
modelled from the spec and the repository's own tests where needed.  Every
definition of the engine itself is translated from src/transform.rs.
-/

namespace Mdtrans

/-- Node-kind tags of the parse tree.  The variants matched by
`TransformFramework::act_on_pair` come from src/transform.rs; `comment`,
`strikethrough`, `url`, `img_tags` and `img_tag` are modelled from the spec
and the repository tests (the pest grammar file is not among the sources). -/
inductive Rule where
  | file | h1 | h2 | h3 | h4 | h5 | h6
  | bold | italic | link | reflink | refurl
  | quote | quote_line | codeblock | inline_code
  | horiz_sep | image | list | list_element
  | paragraph | paragraph_newline | vertical_space
  | rich_txt | quote_txt | bold_text | italic_text
  | text | link_text | code | img_tag_key | img_tag_val
  | slug | url | img_tags | img_tag
  | comment | strikethrough
  | EOI
  deriving DecidableEq, Repr

/-- A pest `Pair`: a rule tag, the matched source span (`as_str`), and the
ordered inner pairs (`into_inner`). -/
inductive Pair where
  | mk (rule : Rule) (str : String) (inner : List Pair)

def Pair.rule : Pair → Rule
  | .mk r _ _ => r

def Pair.str : Pair → String
  | .mk _ s _ => s

def Pair.inner : Pair → List Pair
  | .mk _ _ i => i

/-- `TransformFramework::is_raw_text`. -/
def isRawText (rule : Rule) : Bool :=
  match rule with
  | .text | .link_text | .code | .img_tag_key | .img_tag_val => true
  | _ => false

/-- `TransformFramework::is_inline`. -/
def isInline (rule : Rule) : Bool :=
  match rule with
  | .text | .link_text | .code | .image | .bold | .italic | .link => true
  | _ => false

/-- `ParseState`: the two flags threaded through the recursive walk. -/
structure ParseState where
  peek : Bool := false
  add_space : Bool := false
  deriving DecidableEq, Repr

/-- `ParseState::peek()`. -/
def ParseState.peekState : ParseState := { peek := true }

/-- Instrumentation: one event per hook call site of the engine, recording the
arguments the hook was invoked with. -/
inductive Event where
  | peekText (t : String) | transformText (t : String)
  | peekHeader (level : Nat) (t : String) | transformHeader (level : Nat) (t : String)
  | peekBold (t : String) | transformBold (t : String)
  | peekItalic (t : String) | transformItalic (t : String)
  | peekReflink (t slug : String) | transformReflink (t slug : String)
  | peekRefurl (slug urlArg : String) | transformRefurl (slug urlArg : String)
  | peekLink (t urlArg : String) | transformLink (t urlArg : String)
  | peekImage (alt urlArg : String) (tags : List (String × String))
  | transformImage (alt urlArg : String) (tags : List (String × String))
  | peekQuote (t : String) | transformQuote (t : String)
  | peekCodeblock (lang : Option String) (t : String)
  | transformCodeblock (lang : Option String) (t : String)
  | peekInlineCode (t : String) | transformInlineCode (t : String)
  | peekHorizSep | transformHorizSep
  | peekList (els : List String) | transformList (els : List String)
  | peekListElement (el : String) | transformListElement (el : String)
  | peekVerticalSpace | transformVerticalSpace
  | peekParagraph (t : String) | transformParagraph (t : String)
  | finishedEv (peek : Bool)
  deriving DecidableEq, Repr

/-- Is this event an invocation of a peek hook of the capability contract? -/
def Event.isPeekHook : Event → Bool
  | .peekText _ | .peekHeader _ _ | .peekBold _ | .peekItalic _
  | .peekReflink _ _ | .peekRefurl _ _ | .peekLink _ _ | .peekImage _ _ _
  | .peekQuote _ | .peekCodeblock _ _ | .peekInlineCode _ | .peekHorizSep
  | .peekList _ | .peekListElement _ | .peekVerticalSpace | .peekParagraph _ => true
  | _ => false

/-- Is this event an invocation of a transform hook of the capability contract? -/
def Event.isTransformHook : Event → Bool
  | .transformText _ | .transformHeader _ _ | .transformBold _ | .transformItalic _
  | .transformReflink _ _ | .transformRefurl _ _ | .transformLink _ _
  | .transformImage _ _ _ | .transformQuote _ | .transformCodeblock _ _
  | .transformInlineCode _ | .transformHorizSep | .transformList _
  | .transformListElement _ | .transformVerticalSpace | .transformParagraph _ => true
  | _ => false

/-- `Errcode` (src/errors.rs); the io error payload is kept as a string. -/
inductive Errcode where
  | ParsingError (msg : String)
  | IoError (msg : String)
  deriving DecidableEq, Repr

deriving instance DecidableEq for Except

/-- `HashMap::insert`: replace the binding of the key if present, else append. -/
def insertKV : List (String × String) → String → String → List (String × String)
  | [], k, v => [(k, v)]
  | (k', v') :: rest, k, v =>
      if k' = k then (k, v) :: rest else (k', v') :: insertKV rest k v

/-- `HashMap::get`. -/
def lookupKV : List (String × String) → String → Option String
  | [], _ => none
  | (k', v') :: rest, k => if k' = k then some v' else lookupKV rest k

/-- The `MarkdownTransformer` trait (src/transform.rs): one peek/transform hook
pair per construct, every hook threading the renderer-owned state `σ`.
The default field values are the trait's default method bodies. -/
structure Transformer (σ : Type) where
  peek_text : σ → String → σ := fun s _ => s
  transform_text : σ → String → σ × String := fun s t => (s, t)
  peek_header : σ → Nat → String → σ := fun s _ _ => s
  transform_header : σ → Nat → String → σ × String := fun s _ t => (s, t)
  peek_bold : σ → String → σ := fun s _ => s
  transform_bold : σ → String → σ × String := fun s t => (s, t)
  peek_italic : σ → String → σ := fun s _ => s
  transform_italic : σ → String → σ × String := fun s t => (s, t)
  peek_reflink : σ → String → String → σ := fun s _ _ => s
  transform_reflink : σ → String → String → σ × String := fun s t _ => (s, t)
  peek_refurl : σ → String → String → σ := fun s _ _ => s
  transform_refurl : σ → String → String → σ × String := fun s _ _ => (s, "")
  peek_link : σ → String → String → σ := fun s _ _ => s
  transform_link : σ → String → String → σ × String := fun s t _ => (s, t)
  peek_image : σ → String → String → List (String × String) → σ := fun s _ _ _ => s
  transform_image : σ → String → String → List (String × String) → σ × String :=
    fun s alt _ _ => (s, alt)
  peek_comment : σ → String → σ := fun s _ => s
  transform_comment : σ → String → σ × String := fun s t => (s, t)
  peek_strikethrough : σ → String → σ := fun s _ => s
  transform_strikethrough : σ → String → σ × String := fun s t => (s, t)
  peek_quote : σ → String → σ := fun s _ => s
  transform_quote : σ → String → σ × String := fun s t => (s, t)
  peek_codeblock : σ → Option String → String → σ := fun s _ _ => s
  transform_codeblock : σ → Option String → String → σ × String := fun s _ t => (s, t)
  peek_inline_code : σ → String → σ := fun s _ => s
  transform_inline_code : σ → String → σ × String := fun s t => (s, t)
  peek_horizontal_separator : σ → σ := fun s => s
  transform_horizontal_separator : σ → σ × String := fun s => (s, "")
  peek_list : σ → List String → σ := fun s _ => s
  transform_list : σ → List String → σ × String :=
    fun s els => (s, String.intercalate ", " els)
  peek_list_element : σ → String → σ := fun s _ => s
  transform_list_element : σ → String → σ × String := fun s t => (s, t)
  peek_vertical_space : σ → σ := fun s => s
  transform_vertical_space : σ → σ × String := fun s => (s, "\n")
  peek_paragraph : σ → String → σ := fun s _ => s
  transform_paragraph : σ → String → σ × String := fun s t => (s, t)
  finished : σ → Bool → σ × String := fun s _ => (s, "")

/-- A transformer leaving every hook at its trait default. -/
def defaultTransformer {σ : Type} : Transformer σ := {}

/-- `TransformFramework::act_on_raw_text`.  Does not modify the parse state. -/
def actRaw {σ : Type} (t : Transformer σ) (st : ParseState) (s : σ) (txt : String) :
    σ × String × List Event :=
  if st.peek then (t.peek_text s txt, "", [.peekText txt])
  else
    let r := t.transform_text s txt
    (r.1, r.2, [.transformText txt])

/-- The accumulation loop of `TransformFramework::get_whole_block`: the text
span of every inner pair followed by the join, left to right.  Modelled at
character level (the engine only ever passes the single-byte join `"\n"`, so
Rust's byte-length arithmetic and byte slicing coincide with character
counts). -/
def blockBuffer (inner : List Pair) (join : String) : List Char :=
  inner.foldl (fun b p => b ++ p.str.data ++ join.data) []

/-- The `TransformFramework::get_whole_block` function itself: the buffer
accumulation above, then the Rust slice `buffer[..buffer.len() - join.len()]`.
The subtraction panics on `usize` underflow when the buffer is shorter than
the join (and after release-mode wrap-around the slice itself is out of
bounds); a panic is `none`. -/
def getWholeBlock (inner : List Pair) (join : String) : Option String :=
  let buffer := blockBuffer inner join
  if buffer.length < join.data.length then none
  else some ⟨buffer.take (buffer.length - join.data.length)⟩

/-- Joining a list of lines with a separator, no trimming: the specification's
"literal lines joined with newline, exactly". -/
def joinLines : List String → String → String
  | [], _ => ""
  | [l], _ => l
  | l :: rest, join => l ++ join ++ joinLines rest join

mutual

/-- `TransformFramework::act_on_pair`.  The result is the caller-visible
mutated `ParseState` (the Rust function takes `&mut ParseState`), the mutated
transformer state, the accumulated output text, and the instrumentation trace
of hook invocations in call order.  Panics (`assert!`, `unwrap`,
`unimplemented!`, slice underflow) are `none`; `fuel` bounds the recursion
depth (every run below instantiates it large enough).  The leading-space
consumption is factored out here; the source arms that return without the
`text` accumulator (`EOI`, childless containers) are never inline, so the
prefix re-appended below is `""` for them, exactly as in the source. -/
def actOnPair {σ : Type} (t : Transformer σ) (fuel : Nat) (st : ParseState)
    (s : σ) (p : Pair) : Option (ParseState × σ × String × List Event) :=
  match fuel with
  | 0 => none
  | fuel + 1 =>
    let consume := st.add_space && isInline p.rule
    let st1 := if consume then { st with add_space := false } else st
    match actBody t fuel st1 s p.rule p.str p.inner with
    | none => none
    | some (st2, s2, txt, evs) =>
      some (st2, s2, (if consume then " " else "") ++ txt, evs)

/-- The body of `act_on_pair` after leading-space handling: the raw-text
short-circuit followed by the per-rule dispatch `match`. -/
def actBody {σ : Type} (t : Transformer σ) (fuel : Nat) (st : ParseState)
    (s : σ) (rule : Rule) (ptext : String) (inner : List Pair) :
    Option (ParseState × σ × String × List Event) :=
  match fuel with
  | 0 => none
  | fuel + 1 =>
    if isRawText rule then
      let r := actRaw t st s ptext
      some (st, r.1, r.2.1, r.2.2)
    else
      match rule with
      | .h1 => headerArm t fuel st s 1 inner
      | .h2 => headerArm t fuel st s 2 inner
      | .h3 => headerArm t fuel st s 3 inner
      | .h4 => headerArm t fuel st s 4 inner
      | .h5 => headerArm t fuel st s 5 inner
      | .h6 => headerArm t fuel st s 6 inner
      | .italic =>
        match getInnerElements t fuel st s inner.length inner with
        | none => none
        | some (s1, itext, e1, _) =>
          if st.peek then
            some (st, t.peek_italic s1 itext, "", e1 ++ [.peekItalic itext])
          else
            let r := t.transform_italic s1 itext
            some (st, r.1, r.2, e1 ++ [.transformItalic itext])
      | .bold =>
        match getInnerElements t fuel st s inner.length inner with
        | none => none
        | some (s1, btext, e1, _) =>
          if st.peek then
            some (st, t.peek_bold s1 btext, "", e1 ++ [.peekBold btext])
          else
            let r := t.transform_bold s1 btext
            some (st, r.1, r.2, e1 ++ [.transformBold btext])
      | .link =>
        match getInnerElements t fuel st s (inner.length - 1) inner with
        | none => none
        | some (s1, ltext, e1, rem) =>
          match rem with
          | [] => none
          | u :: _ =>
            if st.peek then
              some (st, t.peek_link s1 ltext u.str, "", e1 ++ [.peekLink ltext u.str])
            else
              let r := t.transform_link s1 ltext u.str
              some (st, r.1, r.2, e1 ++ [.transformLink ltext u.str])
      | .reflink =>
        match getInnerElements t fuel st s (inner.length - 1) inner with
        | none => none
        | some (s1, ltext, e1, rem) =>
          match rem with
          | [] => none
          | u :: _ =>
            if st.peek then
              some (st, t.peek_reflink s1 ltext u.str, "",
                e1 ++ [.peekReflink ltext u.str])
            else
              let r := t.transform_reflink s1 ltext u.str
              some (st, r.1, r.2, e1 ++ [.transformReflink ltext u.str])
      | .refurl =>
        match inner with
        | [a, b] =>
          if st.peek then
            some (st, t.peek_refurl s a.str b.str, "", [.peekRefurl a.str b.str])
          else
            let r := t.transform_refurl s a.str b.str
            some (st, r.1, r.2, [.transformRefurl a.str b.str])
        | _ => none
      | .quote =>
        match actQuoteLines t fuel st s inner with
        | none => none
        | some (st1, s1, lines, e1) =>
          let qtext := String.intercalate "\n" lines
          if st1.peek then
            some (st1, t.peek_quote s1 qtext, "", e1 ++ [.peekQuote qtext])
          else
            let r := t.transform_quote s1 qtext
            some (st1, r.1, r.2, e1 ++ [.transformQuote qtext])
      | .quote_line =>
        match getInnerElements t fuel st s inner.length inner with
        | none => none
        | some (s1, txt, e1, _) => some (st, s1, txt, e1)
      | .codeblock =>
        let langRest : Option String × List Pair :=
          match inner with
          | p :: rest => if p.rule = Rule.slug then (some p.str, rest) else (none, p :: rest)
          | [] => (none, [])
        match getWholeBlock langRest.2 "\n" with
        | none => none
        | some body =>
          if st.peek then
            some (st, t.peek_codeblock s langRest.1 body, "",
              [.peekCodeblock langRest.1 body])
          else
            let r := t.transform_codeblock s langRest.1 body
            some (st, r.1, r.2, [.transformCodeblock langRest.1 body])
      | .inline_code =>
        match inner with
        | [c] =>
          if st.peek then
            some (st, t.peek_inline_code s c.str, "", [.peekInlineCode c.str])
          else
            let r := t.transform_inline_code s c.str
            some (st, r.1, r.2, [.transformInlineCode c.str])
        | _ => none
      | .horiz_sep =>
        if st.peek then
          some (st, t.peek_horizontal_separator s, "", [.peekHorizSep])
        else
          let r := t.transform_horizontal_separator s
          some (st, r.1, r.2, [.transformHorizSep])
      | .image =>
        match inner with
        | c1 :: c2 :: rest =>
          match rest with
          | [] =>
            if st.peek then
              some (st, t.peek_image s c1.str c2.str [], "",
                [.peekImage c1.str c2.str []])
            else
              let r := t.transform_image s c1.str c2.str []
              some (st, r.1, r.2, [.transformImage c1.str c2.str []])
          | third :: _ =>
            match getMetadataLoop t fuel st s third.inner with
            | none => none
            | some (s1, kvs, e1) =>
              let tags := kvs.foldl (fun m kv => insertKV m kv.1 kv.2) []
              if st.peek then
                some (st, t.peek_image s1 c1.str c2.str tags, "",
                  e1 ++ [.peekImage c1.str c2.str tags])
              else
                let r := t.transform_image s1 c1.str c2.str tags
                some (st, r.1, r.2, e1 ++ [.transformImage c1.str c2.str tags])
        | _ => none
      | .list =>
        match actListEls t fuel st s inner with
        | none => none
        | some (st1, s1, els, e1) =>
          if st1.peek then
            some (st1, t.peek_list s1 els, "", e1 ++ [.peekList els])
          else
            let r := t.transform_list s1 els
            some (st1, r.1, r.2, e1 ++ [.transformList els])
      | .list_element =>
        match getInnerElements t fuel st s inner.length inner with
        | none => none
        | some (s1, etext, e1, _) =>
          if st.peek then
            some (st, t.peek_list_element s1 etext, "", e1 ++ [.peekListElement etext])
          else
            let r := t.transform_list_element s1 etext
            some (st, r.1, r.2, e1 ++ [.transformListElement etext])
      | .paragraph_newline => some ({ st with add_space := true }, s, "", [])
      | .paragraph =>
        match getInnerElements t fuel st s inner.length inner with
        | none => none
        | some (s1, ptxt, e1, _) =>
          if st.peek then
            some (st, t.peek_paragraph s1 ptxt, "", e1 ++ [.peekParagraph ptxt])
          else
            let r := t.transform_paragraph s1 ptxt
            some (st, r.1, r.2, e1 ++ [.transformParagraph ptxt])
      | .vertical_space =>
        if st.peek then
          some (st, t.peek_vertical_space s, "", [.peekVerticalSpace])
        else
          let r := t.transform_vertical_space s
          some (st, r.1, r.2, [.transformVerticalSpace])
      | .file | .rich_txt | .quote_txt | .bold_text | .italic_text =>
        match inner with
        | [] =>
          let r := actRaw t st s ptext
          some (st, r.1, r.2.1, r.2.2)
        | _ => actChildren t fuel st s inner
      | .EOI => some (st, s, "", [])
      | _ => none

/-- The six identical `Rule::h1 .. Rule::h6` arms of `act_on_pair`: the
`assert_eq!(inner.len(), 1)` check, label resolution through
`get_rich_text` (which clones the state and forces `peek = false` on the
clone), then the header hook. -/
def headerArm {σ : Type} (t : Transformer σ) (fuel : Nat) (st : ParseState)
    (s : σ) (level : Nat) (inner : List Pair) :
    Option (ParseState × σ × String × List Event) :=
  match fuel with
  | 0 => none
  | fuel + 1 =>
    match inner with
    | [child] =>
      match actOnPair t fuel { st with peek := false } s child with
      | none => none
      | some (_, s1, htext, e1) =>
        if st.peek then
          some (st, t.peek_header s1 level htext, "", e1 ++ [.peekHeader level htext])
        else
          let r := t.transform_header s1 level htext
          some (st, r.1, r.2, e1 ++ [.transformHeader level htext])
    | _ => none

/-- `TransformFramework::get_inner_elements`: the `assert!(nb <= inner.len())`
check, a clone of the caller's state threaded across the first `nb` inner
pairs, and the concatenation of their outputs.  Also returns the remaining
(unconsumed) pairs of the iterator. -/
def getInnerElements {σ : Type} (t : Transformer σ) (fuel : Nat) (st : ParseState)
    (s : σ) (nb : Nat) (inner : List Pair) :
    Option (σ × String × List Event × List Pair) :=
  match fuel with
  | 0 => none
  | fuel + 1 =>
    if nb ≤ inner.length then
      match actInnerN t fuel st s nb inner with
      | none => none
      | some (_, s', txts, evs, rem) => some (s', String.join txts, evs, rem)
    else none

/-- The loop of `get_inner_elements`: act on the next `nb` pairs, threading the
cloned child state. -/
def actInnerN {σ : Type} (t : Transformer σ) (fuel : Nat) (st : ParseState)
    (s : σ) (nb : Nat) (inner : List Pair) :
    Option (ParseState × σ × List String × List Event × List Pair) :=
  match fuel with
  | 0 => none
  | fuel + 1 =>
    match nb with
    | 0 => some (st, s, [], [], inner)
    | nb + 1 =>
      match inner with
      | [] => none
      | p :: rest =>
        match actOnPair t fuel st s p with
        | none => none
        | some (st1, s1, txt, e1) =>
          match actInnerN t fuel st1 s1 nb rest with
          | none => none
          | some (st2, s2, txts, e2, rem) =>
            some (st2, s2, txt :: txts, e1 ++ e2, rem)

/-- The `Rule::quote` line loop: each line must be a `quote_line`
(`assert_eq!`), and the caller's state is threaded through the lines. -/
def actQuoteLines {σ : Type} (t : Transformer σ) (fuel : Nat) (st : ParseState)
    (s : σ) (inner : List Pair) :
    Option (ParseState × σ × List String × List Event) :=
  match fuel with
  | 0 => none
  | fuel + 1 =>
    match inner with
    | [] => some (st, s, [], [])
    | line :: rest =>
      if line.rule = Rule.quote_line then
        match actOnPair t fuel st s line with
        | none => none
        | some (st1, s1, txt, e1) =>
          match actQuoteLines t fuel st1 s1 rest with
          | none => none
          | some (st2, s2, txts, e2) => some (st2, s2, txt :: txts, e1 ++ e2)
      else none

/-- The `Rule::list` element loop, threading the caller's state. -/
def actListEls {σ : Type} (t : Transformer σ) (fuel : Nat) (st : ParseState)
    (s : σ) (inner : List Pair) :
    Option (ParseState × σ × List String × List Event) :=
  match fuel with
  | 0 => none
  | fuel + 1 =>
    match inner with
    | [] => some (st, s, [], [])
    | el :: rest =>
      match actOnPair t fuel st s el with
      | none => none
      | some (st1, s1, txt, e1) =>
        match actListEls t fuel st1 s1 rest with
        | none => none
        | some (st2, s2, txts, e2) => some (st2, s2, txt :: txts, e1 ++ e2)

/-- The child loop of the container arm (`file`, `rich_txt`, `quote_txt`,
`bold_text`, `italic_text`), concatenating outputs and threading the caller's
state. -/
def actChildren {σ : Type} (t : Transformer σ) (fuel : Nat) (st : ParseState)
    (s : σ) (inner : List Pair) :
    Option (ParseState × σ × String × List Event) :=
  match fuel with
  | 0 => none
  | fuel + 1 =>
    match inner with
    | [] => some (st, s, "", [])
    | c :: rest =>
      match actOnPair t fuel st s c with
      | none => none
      | some (st1, s1, txt, e1) =>
        match actChildren t fuel st1 s1 rest with
        | none => none
        | some (st2, s2, txt2, e2) => some (st2, s2, txt ++ txt2, e1 ++ e2)

/-- `TransformFramework::get_metadata`: for each key/value pair a fresh clone
of the (immutably borrowed) caller state is threaded through key then value;
a pair lacking a key or a value `break`s out of the loop.  Returns the
key/value texts in iteration order (the caller folds them into the map). -/
def getMetadataLoop {σ : Type} (t : Transformer σ) (fuel : Nat) (st : ParseState)
    (s : σ) (kvs : List Pair) :
    Option (σ × List (String × String) × List Event) :=
  match fuel with
  | 0 => none
  | fuel + 1 =>
    match kvs with
    | [] => some (s, [], [])
    | kv :: rest =>
      match kv.inner with
      | key :: value :: _ =>
        match actOnPair t fuel st s key with
        | none => none
        | some (stk, s1, tk, e1) =>
          match actOnPair t fuel stk s1 value with
          | none => none
          | some (_, s2, tv, e2) =>
            match getMetadataLoop t fuel st s2 rest with
            | none => none
            | some (s3, kvrest, e3) => some (s3, (tk, tv) :: kvrest, e1 ++ e2 ++ e3)
      | _ => some (s, [], [])

end

/-- `transform_markdown_string` (src/transform.rs).  The external pest parser
is passed as a parameter (its source is not among the provided files); `none`
models a panic, `some (.error e)` a returned `Err`.  Note the source calls
`finished(false)` but discards its returned string. -/
def transformMarkdownString {σ : Type} (parse : String → Except Errcode (List Pair))
    (fuel : Nat) (input : String) (t : Transformer σ) (s : σ) :
    Option (Except Errcode (σ × String × List Event)) :=
  match parse input with
  | .error e => some (.error e)
  | .ok [] => some (.error (.ParsingError "Parsed input returned an empty tree"))
  | .ok (parsed :: _) =>
    match actOnPair t fuel ⟨true, false⟩ s parsed with
    | none => none
    | some (_, s1, _, e1) =>
      let f1 := t.finished s1 true
      match actOnPair t fuel ⟨false, false⟩ f1.1 parsed with
      | none => none
      | some (_, s2, res, e2) =>
        let f2 := t.finished s2 false
        some (.ok (f2.1, res, e1 ++ [.finishedEv true] ++ e2 ++ [.finishedEv false]))

/-- `transform_markdown` (src/transform.rs), the streaming entry point.  The
input stream is modelled as the string `read_to_string` produces; the output
stream is modelled by returning the written string together with the byte
count `output.write` reports.  Unlike `transform_markdown_string`, the text
returned by `finished(false)` is appended to the written result. -/
def transformMarkdown {σ : Type} (parse : String → Except Errcode (List Pair))
    (fuel : Nat) (input : String) (t : Transformer σ) (s : σ) :
    Option (Except Errcode (σ × String × Nat × List Event)) :=
  match parse input with
  | .error e => some (.error e)
  | .ok [] => some (.error (.ParsingError "Parsed input returned an empty tree"))
  | .ok (parsed :: _) =>
    match actOnPair t fuel ⟨true, false⟩ s parsed with
    | none => none
    | some (_, s1, _, e1) =>
      let f1 := t.finished s1 true
      match actOnPair t fuel ⟨false, false⟩ f1.1 parsed with
      | none => none
      | some (_, s2, res, e2) =>
        let f2 := t.finished s2 false
        let result := res ++ f2.2
        some (.ok (f2.1, result, result.utf8ByteSize,
          e1 ++ [.finishedEv true] ++ e2 ++ [.finishedEv false]))

/-- Modelled from the spec: parse tree of the degenerate empty document
(grammar source is missing; shape per §4 "document root / generic container"). -/
def emptyTree : Pair := .mk .file "" [.mk .EOI "" []]

/-- Modelled from the spec: parse tree of `"# text"` — a level-1 header whose
single child is its rich-text label (§3 invariants, tests/headers.rs). -/
def h1Tree : Pair :=
  .mk .file "# text" [.mk .h1 "# text" [.mk .rich_txt "text" []], .mk .EOI "" []]

/-- Modelled from the spec: parse tree of `"a\nb\nc"` — one paragraph whose
physical lines are separated by soft line-break children (§4 paragraph rule). -/
def softTree : Pair :=
  .mk .file "a\nb\nc"
    [.mk .paragraph "a\nb\nc"
      [.mk .text "a" [], .mk .paragraph_newline "\n" [], .mk .text "b" [],
       .mk .paragraph_newline "\n" [], .mk .text "c" []],
     .mk .EOI "" []]

/-- Modelled from the spec: parse tree of `"[a][b]\n[b]: c"` — a reference
link (label children then slug) followed by a reference definition
(slug, URL); the line separator between the two line-level constructs is
consumed by the grammar (§3 invariants, §8). -/
def refTree : Pair :=
  .mk .file "[a][b]\n[b]: c"
    [.mk .reflink "[a][b]" [.mk .link_text "a" [], .mk .slug "b" []],
     .mk .refurl "[b]: c" [.mk .slug "b" [], .mk .url "c" []],
     .mk .EOI "" []]

/-- Modelled from the spec: the hypothetical reordering of `refTree` in which
the reference definition precedes the use (§8). -/
def refTreeSwapped : Pair :=
  .mk .file "[b]: c\n[a][b]"
    [.mk .refurl "[b]: c" [.mk .slug "b" [], .mk .url "c" []],
     .mk .reflink "[a][b]" [.mk .link_text "a" [], .mk .slug "b" []],
     .mk .EOI "" []]

/-- Modelled from the spec: parse tree of `"start\n```lang\ncode\n```\nend"` —
a code block whose first child is the language tag and whose remaining
children are the literal code lines (§4 code block rule; the line separators
around the block-level construct are consumed by the grammar, as the
repository's codeblock test output shows). -/
def codeTree : Pair :=
  .mk .file "start\n```lang\ncode\n```\nend"
    [.mk .paragraph "start" [.mk .text "start" []],
     .mk .codeblock "```lang\ncode\n```" [.mk .slug "lang" [], .mk .code "code" []],
     .mk .paragraph "end" [.mk .text "end" []],
     .mk .EOI "" []]

/-- Modelled from the spec: parse tree of `"start\n![image alt](url)\nend"` —
an inline image (alt, URL, no metadata child) inside a paragraph, with soft
line breaks around it (§4 image rule; the repository's image test output
shows the single-space soft-break reconstruction around the image). -/
def imageTree : Pair :=
  .mk .file "start\n![image alt](url)\nend"
    [.mk .paragraph "start\n![image alt](url)\nend"
      [.mk .text "start" [], .mk .paragraph_newline "\n" [],
       .mk .image "![image alt](url)" [.mk .link_text "image alt" [], .mk .url "url" []],
       .mk .paragraph_newline "\n" [], .mk .text "end" []],
     .mk .EOI "" []]

/-- Modelled from the spec: parse tree of `"<!-- comment -->"` — a comment
node (§4.1 lists comments among the constructs; tests/transform.rs feeds this
exact input). -/
def commentTree : Pair :=
  .mk .file "<!-- comment -->"
    [.mk .comment "<!-- comment -->" [.mk .text "comment" []], .mk .EOI "" []]

/-- Modelled from the spec: the external grammar engine
(`MarkdownParser::parse` with `Rule::file`, whose source is not among the
provided files), given on the concrete documents the claims mention.  The
top-level pest iterator yields the single `file` pair. -/
def specParse (input : String) : Except Errcode (List Pair) :=
  if input = "" then .ok [emptyTree]
  else if input = "# text" then .ok [h1Tree]
  else if input = "a\nb\nc" then .ok [softTree]
  else if input = "[a][b]\n[b]: c" then .ok [refTree]
  else if input = "[b]: c\n[a][b]" then .ok [refTreeSwapped]
  else if input = "start\n```lang\ncode\n```\nend" then .ok [codeTree]
  else if input = "start\n![image alt](url)\nend" then .ok [imageTree]
  else if input = "<!-- comment -->" then .ok [commentTree]
  else .error (.ParsingError "input not modelled")

/-- The reference-resolving renderer of §8 and tests/peek.rs: records
slug→URL during reference-definition peek, looks the slug up during
reference-link transform. -/
def refRenderer : Transformer (List (String × String)) where
  peek_refurl := fun s slug u => insertKV s slug u
  transform_refurl := fun s _ _ => (s, "")
  transform_reflink := fun s txt slug =>
    (s, "<a href=\"" ++ ((lookupKV s slug).getD "") ++ "\">" ++ txt ++ "</a>")

/-- The passthrough image renderer of §8 and tests/transform.rs: renders
`alt -> url`, uppercased when the metadata key `upper` equals `true`. -/
def imageRenderer : Transformer Unit where
  transform_image := fun s alt u tags =>
    let upper := match lookupKV tags "upper" with
      | some v => v == "true"
      | none => false
    (s, (if upper then alt.toUpper else alt) ++ " -> " ++
        (if upper then u.toUpper else u))

/-- A renderer whose header transform returns the fixed text `"H"`,
containing no newline. -/
def headerHRenderer : Transformer Unit where
  transform_header := fun s _ _ => (s, "H")

/-- A renderer overriding only `finished`, returning non-empty text on the
final (transform-phase) call. -/
def finishedXRenderer : Transformer Unit where
  finished := fun s pk => (s, if pk then "" else "X")

/-- The rendered output of a `transform_markdown_string` run. -/
def outOf {σ : Type} : Option (Except Errcode (σ × String × List Event)) → Option String
  | some (.ok (_, res, _)) => some res
  | _ => none

/-- The event trace of a `transform_markdown_string` run. -/
def eventsOf {σ : Type} :
    Option (Except Errcode (σ × String × List Event)) → Option (List Event)
  | some (.ok (_, _, evs)) => some evs
  | _ => none

/-- The written string of a `transform_markdown` (streaming) run. -/
def writtenOf {σ : Type} :
    Option (Except Errcode (σ × String × Nat × List Event)) → Option String
  | some (.ok (_, res, _, _)) => some res
  | _ => none

/-- No event of the list is a peek-hook invocation. -/
def cleanEvents (evs : List Event) : Prop := ∀ e ∈ evs, e.isPeekHook = false

/-!  ## Theorems  -/

theorem cleanEvents_nil : cleanEvents [] := by
  intro e he
  cases he

theorem cleanEvents_append {a b : List Event} :
    cleanEvents (a ++ b) ↔ cleanEvents a ∧ cleanEvents b := by
  constructor
  · intro h
    exact ⟨fun e he => h e (List.mem_append_left b he),
           fun e he => h e (List.mem_append_right a he)⟩
  · intro h e he
    rcases List.mem_append.mp he with h1 | h2
    · exact h.1 e h1
    · exact h.2 e h2

theorem cleanEvents_cons {e : Event} {l : List Event} :
    cleanEvents (e :: l) ↔ e.isPeekHook = false ∧ cleanEvents l := by
  constructor
  · intro h
    exact ⟨h e (List.mem_cons_self e l), fun x hx => h x (List.mem_cons_of_mem e hx)⟩
  · intro h x hx
    rcases List.mem_cons.mp hx with rfl | hx'
    · exact h.1
    · exact h.2 x hx'

/-- Evaluation lemma for `transformMarkdownString`: given the parse result and
the results of the two traversals, the entry point's value. -/
theorem transformMarkdownString_eval {σ : Type}
    (parse : String → Except Errcode (List Pair)) (fuel : Nat) (input : String)
    (t : Transformer σ) (s : σ) (parsed : Pair) (rest : List Pair)
    (st1 : ParseState) (s1 : σ) (o1 : String) (e1 : List Event)
    (st2 : ParseState) (s2 : σ) (res : String) (e2 : List Event)
    (hp : parse input = .ok (parsed :: rest))
    (h1 : actOnPair t fuel ⟨true, false⟩ s parsed = some (st1, s1, o1, e1))
    (h2 : actOnPair t fuel ⟨false, false⟩ (t.finished s1 true).1 parsed
      = some (st2, s2, res, e2)) :
    transformMarkdownString parse fuel input t s
      = some (.ok ((t.finished s2 false).1, res,
          e1 ++ [.finishedEv true] ++ e2 ++ [.finishedEv false])) := by
  unfold transformMarkdownString
  rw [hp]
  dsimp only
  rw [h1]
  dsimp only
  rw [h2]

/-- Evaluation lemma for `transformMarkdownString` when the peek traversal
panics. -/
theorem transformMarkdownString_panic_peek {σ : Type}
    (parse : String → Except Errcode (List Pair)) (fuel : Nat) (input : String)
    (t : Transformer σ) (s : σ) (parsed : Pair) (rest : List Pair)
    (hp : parse input = .ok (parsed :: rest))
    (h1 : actOnPair t fuel ⟨true, false⟩ s parsed = none) :
    transformMarkdownString parse fuel input t s = none := by
  unfold transformMarkdownString
  rw [hp]
  dsimp only
  rw [h1]

/-- Evaluation lemma for the streaming `transformMarkdown`. -/
theorem transformMarkdown_eval {σ : Type}
    (parse : String → Except Errcode (List Pair)) (fuel : Nat) (input : String)
    (t : Transformer σ) (s : σ) (parsed : Pair) (rest : List Pair)
    (st1 : ParseState) (s1 : σ) (o1 : String) (e1 : List Event)
    (st2 : ParseState) (s2 : σ) (res : String) (e2 : List Event)
    (hp : parse input = .ok (parsed :: rest))
    (h1 : actOnPair t fuel ⟨true, false⟩ s parsed = some (st1, s1, o1, e1))
    (h2 : actOnPair t fuel ⟨false, false⟩ (t.finished s1 true).1 parsed
      = some (st2, s2, res, e2)) :
    transformMarkdown parse fuel input t s
      = some (.ok ((t.finished s2 false).1, res ++ (t.finished s2 false).2,
          (res ++ (t.finished s2 false).2).utf8ByteSize,
          e1 ++ [.finishedEv true] ++ e2 ++ [.finishedEv false])) := by
  unfold transformMarkdown
  rw [hp]
  dsimp only
  rw [h1]
  dsimp only
  rw [h2]

theorem foldl_blockBuffer (join : String) :
    ∀ (rest : List Pair) (acc : List Char),
      rest.foldl (fun b p => b ++ p.str.data ++ join.data) acc
        = acc ++ rest.foldl (fun b p => b ++ p.str.data ++ join.data) [] := by
  intro rest
  induction rest with
  | nil => intro acc; simp
  | cons q rest ih =>
    intro acc
    rw [List.foldl_cons, List.foldl_cons, ih (acc ++ q.str.data ++ join.data),
      ih ([] ++ q.str.data ++ join.data)]
    simp

theorem blockBuffer_cons (p : Pair) (rest : List Pair) (join : String) :
    blockBuffer (p :: rest) join = p.str.data ++ join.data ++ blockBuffer rest join := by
  unfold blockBuffer
  rw [List.foldl_cons, foldl_blockBuffer]
  simp

theorem joinLines_cons_cons (l r : String) (rest : List String) (join : String) :
    joinLines (l :: r :: rest) join = l ++ join ++ joinLines (r :: rest) join := rfl

theorem blockBuffer_eq (join : String) :
    ∀ (inner : List Pair), inner ≠ [] →
      blockBuffer inner join = (joinLines (inner.map Pair.str) join).data ++ join.data := by
  intro inner
  induction inner with
  | nil => intro h; exact absurd rfl h
  | cons p rest ih =>
    intro _
    cases rest with
    | nil => simp [blockBuffer, joinLines]
    | cons q rest' =>
      rw [blockBuffer_cons, ih (by simp)]
      simp only [List.map_cons, joinLines_cons_cons]
      simp [String.data_append, List.append_assoc]

theorem getWholeBlock_eq_joinLines (inner : List Pair) (join : String)
    (h : inner ≠ []) :
    getWholeBlock inner join = some (joinLines (inner.map Pair.str) join) := by
  simp only [getWholeBlock]
  rw [blockBuffer_eq join inner h]
  rw [if_neg (by simp only [List.length_append]; omega)]
  have harr : ((joinLines (inner.map Pair.str) join).data ++ join.data).length
      - join.data.length = (joinLines (inner.map Pair.str) join).data.length := by
    simp only [List.length_append]
    omega
  rw [harr, List.take_left]

/-- Claim C10: a `get_whole_block` call whose iterator yields no elements
evaluates `buffer.len() - join.len()` on an empty buffer, underflows `usize`
and panics, so a code block with no remaining children makes the render abort
by panic rather than return a failure result; the function is total exactly
under the precondition that the iterator is non-empty. -/
theorem c10_getWholeBlock_empty_panics :
    getWholeBlock [] "\n" = none
    ∧ (∀ (inner : List Pair) (join : String), inner ≠ [] →
        (getWholeBlock inner join).isSome = true)
    ∧ (∀ (σ : Type) (t : Transformer σ) (fuel : Nat) (pk sp : Bool) (s : σ)
        (txt : String),
        actOnPair t (fuel + 2) ⟨pk, sp⟩ s (.mk .codeblock txt []) = none) := by
  refine ⟨rfl, ?_, ?_⟩
  · intro inner join h
    rw [getWholeBlock_eq_joinLines inner join h]
    rfl
  · intro σ t fuel pk sp s txt
    cases sp <;> rfl

/-- Witness for C10 at a concrete non-empty iterator. -/
theorem c10_getWholeBlock_empty_panics_witness :
    (getWholeBlock [Pair.mk .code "x" []] "\n").isSome = true :=
  c10_getWholeBlock_empty_panics.2.1 [Pair.mk .code "x" []] "\n" (by simp)

/-- Claim C7: if a code block's first child is a language tag (`slug`) it is
extracted separately and excluded from the body; the remaining children are
joined with newline verbatim, with no trimming; concretely, rendering
"start\n```lang\ncode\n```\nend" invokes the code-block transform hook with
language `some "lang"` and body exactly `"code"`. -/
theorem c7_codeblock_language_and_verbatim_body :
    (∀ (σ : Type) (t : Transformer σ) (fuel : Nat) (sp : Bool) (s : σ)
        (txt lng : String) (rest : List Pair) (body : String),
        getWholeBlock rest "\n" = some body →
        actOnPair t (fuel + 2) ⟨false, sp⟩ s
            (.mk .codeblock txt (.mk .slug lng [] :: rest))
          = some (⟨false, sp⟩, (t.transform_codeblock s (some lng) body).1,
              (t.transform_codeblock s (some lng) body).2,
              [.transformCodeblock (some lng) body]))
    ∧ (∀ (inner : List Pair) (join : String), inner ≠ [] →
        getWholeBlock inner join = some (joinLines (inner.map Pair.str) join))
    ∧ Event.transformCodeblock (some "lang") "code"
        ∈ (eventsOf (transformMarkdownString specParse 99
            "start\n```lang\ncode\n```\nend" defaultTransformer ())).getD [] := by
  refine ⟨?_, getWholeBlock_eq_joinLines, by decide⟩
  intro σ t fuel sp s txt lng rest body hbody
  cases sp <;>
    simp [actOnPair, actBody, Pair.rule, Pair.str, Pair.inner, isRawText, isInline, hbody]

/-- Witness for C7 at a concrete code block. -/
theorem c7_codeblock_language_and_verbatim_body_witness :
    actOnPair (defaultTransformer : Transformer Unit) 7 ⟨false, false⟩ ()
        (.mk .codeblock "x" [.mk .slug "lang" [], .mk .code "code" []])
      = some (⟨false, false⟩, (), "code", [.transformCodeblock (some "lang") "code"]) :=
  c7_codeblock_language_and_verbatim_body.1 Unit defaultTransformer 5 false ()
    "x" "lang" [.mk .code "code" []] "code" (by decide)

/-- Claim C2 counterexample: headers are block constructs, yet the final
output of the render entry point on "# text" with a renderer whose header
hook returns "H" is exactly "H" — not wrapped in a leading and trailing
newline. -/
theorem c2_no_newline_wrapping_counterexample :
    outOf (transformMarkdownString specParse 99 "# text" headerHRenderer ())
      = some "H" ∧ ("H" : String) ≠ "\nH\n" :=
  ⟨by decide, by decide⟩

/-- Claim C2 amended: the engine injects no newlines around block constructs;
a header's (or a horizontal separator's) contribution to the final output is
exactly the text its transform hook returns. -/
theorem c2_amended_block_output_is_hook_output :
    (∀ (σ : Type) (t : Transformer σ) (fuel : Nat) (sp : Bool) (s : σ)
        (txt lbl : String),
        actOnPair t (fuel + 5) ⟨false, sp⟩ s (.mk .h1 txt [.mk .rich_txt lbl []])
          = some (⟨false, sp⟩,
              (t.transform_header (t.transform_text s lbl).1 1
                (t.transform_text s lbl).2).1,
              (t.transform_header (t.transform_text s lbl).1 1
                (t.transform_text s lbl).2).2,
              [.transformText lbl, .transformHeader 1 (t.transform_text s lbl).2]))
    ∧ (∀ (σ : Type) (t : Transformer σ) (fuel : Nat) (sp : Bool) (s : σ)
        (txt : String) (inner : List Pair),
        actOnPair t (fuel + 2) ⟨false, sp⟩ s (.mk .horiz_sep txt inner)
          = some (⟨false, sp⟩, (t.transform_horizontal_separator s).1,
              (t.transform_horizontal_separator s).2, [.transformHorizSep])) := by
  constructor
  · intro σ t fuel sp s txt lbl
    cases sp <;> rfl
  · intro σ t fuel sp s txt inner
    cases sp <;> rfl

/-- Claim C3 counterexample: with every hook left at its trait default, the
header transform hook (not the plain-text hook) returns its text argument
unchanged — silently substituted content rather than an empty string or a
capability-not-implemented failure; the image default likewise substitutes
the alt text. -/
theorem c3_default_hooks_counterexample :
    ((defaultTransformer : Transformer Unit).transform_header () 1 "x").2 = "x"
    ∧ ("x" : String) ≠ ""
    ∧ ((defaultTransformer : Transformer Unit).transform_image () "alt" "u" []).2
        = "alt" :=
  ⟨rfl, by decide, rfl⟩

/-- Claim C3 amended: the default hooks are mostly pass-through — text,
header, bold, italic, link, reference-link, comment, strikethrough, quote,
code block, inline code, list element and paragraph all return their text
argument; image returns its alt text; list joins the rendered elements with
", "; vertical space returns a newline; only the reference-definition and
horizontal-separator defaults return the empty string; and no
capability-not-implemented failure exists — the error type has only parse
and io errors. -/
theorem c3_amended_default_hook_values :
    (∀ (σ : Type) (s : σ) (x : String),
      ((defaultTransformer : Transformer σ).transform_text s x).2 = x
      ∧ (∀ n : Nat, ((defaultTransformer : Transformer σ).transform_header s n x).2 = x)
      ∧ ((defaultTransformer : Transformer σ).transform_bold s x).2 = x
      ∧ ((defaultTransformer : Transformer σ).transform_italic s x).2 = x
      ∧ (∀ y : String,
          ((defaultTransformer : Transformer σ).transform_link s x y).2 = x
          ∧ ((defaultTransformer : Transformer σ).transform_reflink s x y).2 = x
          ∧ ((defaultTransformer : Transformer σ).transform_refurl s x y).2 = ""
          ∧ (∀ tags, ((defaultTransformer : Transformer σ).transform_image s x y tags).2 = x))
      ∧ ((defaultTransformer : Transformer σ).transform_comment s x).2 = x
      ∧ ((defaultTransformer : Transformer σ).transform_strikethrough s x).2 = x
      ∧ ((defaultTransformer : Transformer σ).transform_quote s x).2 = x
      ∧ (∀ lang, ((defaultTransformer : Transformer σ).transform_codeblock s lang x).2 = x)
      ∧ ((defaultTransformer : Transformer σ).transform_inline_code s x).2 = x
      ∧ ((defaultTransformer : Transformer σ).transform_horizontal_separator s).2 = ""
      ∧ (∀ els, ((defaultTransformer : Transformer σ).transform_list s els).2
          = String.intercalate ", " els)
      ∧ ((defaultTransformer : Transformer σ).transform_list_element s x).2 = x
      ∧ ((defaultTransformer : Transformer σ).transform_vertical_space s).2 = "\n"
      ∧ ((defaultTransformer : Transformer σ).transform_paragraph s x).2 = x
      ∧ (∀ b : Bool, ((defaultTransformer : Transformer σ).finished s b).2 = ""))
    ∧ (∀ e : Errcode, (∃ m, e = .ParsingError m) ∨ (∃ m, e = .IoError m)) := by
  constructor
  · intro σ s x
    exact ⟨rfl, fun _ => rfl, rfl, rfl,
      fun _ => ⟨rfl, rfl, rfl, fun _ => rfl⟩, rfl, rfl, rfl, fun _ => rfl, rfl, rfl,
      fun _ => rfl, rfl, rfl, rfl, fun _ => rfl⟩
  · intro e
    cases e with
    | ParsingError m => exact Or.inl ⟨m, rfl⟩
    | IoError m => exact Or.inr ⟨m, rfl⟩

/-- Claim C5: reference resolution is order-independent: rendering
"[a][b]\n[b]: c" with the slug-recording renderer yields exactly the anchor
markup naming url `c`, and the reordered document in which the definition
precedes the use yields the same output, because the peek pass sees the whole
tree before any transform. -/
theorem c5_reference_resolution_order_independent :
    outOf (transformMarkdownString specParse 99 "[a][b]\n[b]: c" refRenderer [])
      = some "<a href=\"c\">a</a>"
    ∧ outOf (transformMarkdownString specParse 99 "[b]: c\n[a][b]" refRenderer [])
      = outOf (transformMarkdownString specParse 99 "[a][b]\n[b]: c" refRenderer []) :=
  ⟨by decide, by decide⟩

set_option maxHeartbeats 1000000 in
/-- Claim C9: an image node takes its alt text and URL from its first two
children, and with no third (metadata) child both image hooks receive an
empty key/value map — never a missing value; concretely, rendering
"start\n![image alt](url)\nend" with the passthrough image renderer yields
"start image alt -> url end". -/
theorem c9_image_empty_metadata :
    (∀ (σ : Type) (t : Transformer σ) (fuel : Nat) (s : σ) (txt : String)
        (c1 c2 : Pair),
        actOnPair t (fuel + 2) ⟨true, false⟩ s (.mk .image txt [c1, c2])
          = some (⟨true, false⟩, t.peek_image s c1.str c2.str [], "",
              [.peekImage c1.str c2.str []]))
    ∧ (∀ (σ : Type) (t : Transformer σ) (fuel : Nat) (s : σ) (txt : String)
        (c1 c2 : Pair),
        actOnPair t (fuel + 2) ⟨false, false⟩ s (.mk .image txt [c1, c2])
          = some (⟨false, false⟩, (t.transform_image s c1.str c2.str []).1,
              (t.transform_image s c1.str c2.str []).2,
              [.transformImage c1.str c2.str []]))
    ∧ outOf (transformMarkdownString specParse 99 "start\n![image alt](url)\nend"
        imageRenderer ()) = some "start image alt -> url end" := by
  refine ⟨fun _ _ _ _ _ _ _ => rfl, fun _ _ _ _ _ _ _ => rfl, ?_⟩
  rw [transformMarkdownString_eval specParse 99 "start\n![image alt](url)\nend"
    imageRenderer () imageTree [] ⟨true, false⟩ () ""
    [.peekText "start", .peekImage "image alt" "url" [], .peekText "end",
     .peekParagraph "  "]
    ⟨false, false⟩ () "start image alt -> url end"
    [.transformText "start", .transformImage "image alt" "url" [],
     .transformText "end", .transformParagraph "start image alt -> url end"]
    rfl rfl rfl]
  rfl

set_option maxHeartbeats 1000000 in
/-- Claim C6: a soft line break among paragraph children produces no output
of its own but sets the pending-soft-space flag; the next inline unit is then
prefixed with exactly one space and the flag cleared; concretely, "a\nb\nc"
rendered with the identity text renderer yields exactly "a b c". -/
theorem c6_soft_line_break :
    (∀ (σ : Type) (t : Transformer σ) (fuel : Nat) (st : ParseState) (s : σ)
        (txt : String) (inner : List Pair),
        actOnPair t (fuel + 2) st s (.mk .paragraph_newline txt inner)
          = some (⟨st.peek, true⟩, s, "", []))
    ∧ (∀ (σ : Type) (t : Transformer σ) (fuel : Nat) (pk : Bool) (s : σ) (p : Pair),
        isInline p.rule = true →
        actOnPair t (fuel + 1) ⟨pk, true⟩ s p
          = (actOnPair t (fuel + 1) ⟨pk, false⟩ s p).map
              (fun r => (r.1, r.2.1, " " ++ r.2.2.1, r.2.2.2)))
    ∧ outOf (transformMarkdownString specParse 99 "a\nb\nc" defaultTransformer ())
        = some "a b c" := by
  refine ⟨?_, ?_, ?_⟩
  · intro σ t fuel st s txt inner
    obtain ⟨pk, sp⟩ := st
    cases sp <;> rfl
  · intro σ t fuel pk s p h
    obtain ⟨rule, txt, inner⟩ := p
    simp only [Pair.rule] at h
    simp [actOnPair, Pair.rule, Pair.str, Pair.inner, h]
    cases hb : actBody t fuel ⟨pk, false⟩ s rule txt inner <;> simp [hb]
  · rw [transformMarkdownString_eval specParse 99 "a\nb\nc"
      defaultTransformer () softTree [] ⟨true, false⟩ () ""
      [.peekText "a", .peekText "b", .peekText "c", .peekParagraph "  "]
      ⟨false, false⟩ () "a b c"
      [.transformText "a", .transformText "b", .transformText "c",
       .transformParagraph "a b c"]
      rfl rfl rfl]
    rfl

/-- Witness for C6 at a concrete pending-space inline text pair. -/
theorem c6_soft_line_break_witness :
    isInline (Pair.mk .text "b" []).rule = true
    ∧ actOnPair (defaultTransformer : Transformer Unit) 5 ⟨false, true⟩ ()
          (.mk .text "b" [])
        = (actOnPair (defaultTransformer : Transformer Unit) 5 ⟨false, false⟩ ()
            (.mk .text "b" [])).map (fun r => (r.1, r.2.1, " " ++ r.2.2.1, r.2.2.2)) :=
  ⟨by decide, c6_soft_line_break.2.1 Unit defaultTransformer 4 false ()
    (.mk .text "b" []) (by decide)⟩

set_option maxHeartbeats 1000000 in
/-- Claim C4 (a code bug): on the comment document of the repository's own
test the render entry point hits the `unimplemented!` fallback arm and panics
instead of returning a failure result; a header pair violating the one-child
invariant likewise panics via `assert_eq!` rather than producing an error
value. -/
theorem c4_entry_point_panics_on_comment :
    transformMarkdownString specParse 99 "<!-- comment -->"
        (defaultTransformer : Transformer Unit) () = none
    ∧ (∀ (σ : Type) (t : Transformer σ) (fuel : Nat) (s : σ) (txt : String),
        actOnPair t (fuel + 3) ⟨false, false⟩ s (.mk .h1 txt []) = none) :=
  ⟨transformMarkdownString_panic_peek specParse 99 "<!-- comment -->"
      defaultTransformer () commentTree [] rfl rfl,
   fun _ _ _ _ _ => rfl⟩

/-- Claim C8 counterexample: with a renderer whose `finished(false)` returns
"X", the streaming entry point writes "X" for the empty document while the
in-memory entry point returns "" — the stream does not receive exactly the
in-memory result. -/
theorem c8_streaming_write_counterexample :
    writtenOf (transformMarkdown specParse 9 "" finishedXRenderer ()) = some "X"
    ∧ outOf (transformMarkdownString specParse 9 "" finishedXRenderer ()) = some ""
    ∧ some ("X" : String) ≠ some ("" : String) :=
  ⟨by decide, by decide, by decide⟩

/-- Claim C8 amended: on the same input and renderer, whenever the in-memory
entry point succeeds with rendered text `res`, the streaming entry point
writes `res` concatenated with the transformer's `finished(false)` text
(which the in-memory entry point discards) and returns the byte count of the
written string; the two coincide exactly when that finished text is empty, as
it is for the default `finished`. -/
theorem c8_amended_streaming_relation :
    ∀ (σ : Type) (parse : String → Except Errcode (List Pair)) (fuel : Nat)
      (input : String) (t : Transformer σ) (s s' : σ) (res : String)
      (evs : List Event),
      transformMarkdownString parse fuel input t s = some (.ok (s', res, evs)) →
      ∃ fin : String,
        transformMarkdown parse fuel input t s
          = some (.ok (s', res ++ fin, (res ++ fin).utf8ByteSize, evs))
        ∧ ((∀ x : σ, (t.finished x false).2 = "") → fin = "") := by
  intro σ parse fuel input t s s' res evs h
  unfold transformMarkdownString at h
  unfold transformMarkdown
  cases hp : parse input with
  | error e => rw [hp] at h; simp at h
  | ok pairs =>
    rw [hp] at h
    cases pairs with
    | nil => simp at h
    | cons parsed rest =>
      dsimp only at h ⊢
      cases h1 : actOnPair t fuel ⟨true, false⟩ s parsed with
      | none => rw [h1] at h; simp at h
      | some r1 =>
        obtain ⟨st1, s1, o1, e1⟩ := r1
        rw [h1] at h
        dsimp only at h ⊢
        cases h2 : actOnPair t fuel ⟨false, false⟩ (t.finished s1 true).1 parsed with
        | none => rw [h2] at h; simp at h
        | some r2 =>
          obtain ⟨st2, s2, o2, e2⟩ := r2
          rw [h2] at h
          dsimp only at h ⊢
          simp only [Option.some.injEq, Except.ok.injEq, Prod.mk.injEq] at h
          obtain ⟨hs', hres, hevs⟩ := h
          subst hs'
          subst hres
          subst hevs
          exact ⟨(t.finished s2 false).2, rfl, fun hf => hf s2⟩

/-- Witness for C8 at the empty document with the default renderer. -/
theorem c8_amended_streaming_relation_witness :
    ∃ fin : String,
      transformMarkdown specParse 9 "" (defaultTransformer : Transformer Unit) ()
        = some (.ok ((), "" ++ fin, ("" ++ fin).utf8ByteSize,
            [Event.finishedEv true, Event.finishedEv false]))
      ∧ ((∀ x : Unit, ((defaultTransformer : Transformer Unit).finished x false).2 = "")
          → fin = "") :=
  c8_amended_streaming_relation Unit specParse 9 "" defaultTransformer () () ""
    [Event.finishedEv true, Event.finishedEv false]
    (transformMarkdownString_eval specParse 9 "" defaultTransformer () emptyTree []
      ⟨true, false⟩ () "" [] ⟨false, false⟩ () "" [] rfl rfl rfl)


set_option maxHeartbeats 1000000 in
theorem peekInvariant {σ : Type} (t : Transformer σ) :
    ∀ fuel : Nat,
      (∀ st s p st' s' txt evs,
        actOnPair t fuel st s p = some (st', s', txt, evs) →
        st'.peek = st.peek ∧ (st.peek = false → cleanEvents evs))
      ∧ (∀ st s rule ptext inner st' s' txt evs,
          actBody t fuel st s rule ptext inner = some (st', s', txt, evs) →
          st'.peek = st.peek ∧ (st.peek = false → cleanEvents evs))
      ∧ (∀ st s level inner st' s' txt evs,
          headerArm t fuel st s level inner = some (st', s', txt, evs) →
          st'.peek = st.peek ∧ (st.peek = false → cleanEvents evs))
      ∧ (∀ st s nb inner s' txt evs rem,
          getInnerElements t fuel st s nb inner = some (s', txt, evs, rem) →
          (st.peek = false → cleanEvents evs))
      ∧ (∀ st s nb inner st' s' txts evs rem,
          actInnerN t fuel st s nb inner = some (st', s', txts, evs, rem) →
          st'.peek = st.peek ∧ (st.peek = false → cleanEvents evs))
      ∧ (∀ st s inner st' s' txts evs,
          actQuoteLines t fuel st s inner = some (st', s', txts, evs) →
          st'.peek = st.peek ∧ (st.peek = false → cleanEvents evs))
      ∧ (∀ st s inner st' s' txts evs,
          actListEls t fuel st s inner = some (st', s', txts, evs) →
          st'.peek = st.peek ∧ (st.peek = false → cleanEvents evs))
      ∧ (∀ st s inner st' s' txt evs,
          actChildren t fuel st s inner = some (st', s', txt, evs) →
          st'.peek = st.peek ∧ (st.peek = false → cleanEvents evs))
      ∧ (∀ st s kvs s' kvlist evs,
          getMetadataLoop t fuel st s kvs = some (s', kvlist, evs) →
          (st.peek = false → cleanEvents evs)) := by
  intro fuel
  induction fuel with
  | zero =>
    refine ⟨fun st s p st' s' txt evs h => absurd h (by simp [actOnPair]),
            fun st s rule ptext inner st' s' txt evs h => absurd h (by simp [actBody]),
            fun st s level inner st' s' txt evs h => absurd h (by simp [headerArm]),
            fun st s nb inner s' txt evs rem h => absurd h (by simp [getInnerElements]),
            fun st s nb inner st' s' txts evs rem h => absurd h (by simp [actInnerN]),
            fun st s inner st' s' txts evs h => absurd h (by simp [actQuoteLines]),
            fun st s inner st' s' txts evs h => absurd h (by simp [actListEls]),
            fun st s inner st' s' txt evs h => absurd h (by simp [actChildren]),
            fun st s kvs s' kvlist evs h => absurd h (by simp [getMetadataLoop])⟩
  | succ n ih =>
    obtain ⟨ihP, ihB, ihH, ihG, ihI, ihQ, ihL, ihC, ihM⟩ := ih
    refine ⟨?_, ?_, ?_, ?_, ?_, ?_, ?_, ?_, ?_⟩
    -- (1) actOnPair
    · intro st s p st' s' txt evs h
      simp only [actOnPair] at h
      cases hb : actBody t n
          (if st.add_space && isInline p.rule then { st with add_space := false } else st)
          s p.rule p.str p.inner with
      | none => rw [hb] at h; simp at h
      | some r =>
        obtain ⟨st2, s2, txt2, evs2⟩ := r
        rw [hb] at h
        simp at h
        obtain ⟨h1, h2, h3, h4⟩ := h
        have hst1 : (if st.add_space && isInline p.rule then
            { st with add_space := false } else st).peek = st.peek := by
          split <;> rfl
        obtain ⟨hb1, hb2⟩ := ihB _ _ _ _ _ _ _ _ _ hb
        constructor
        · rw [← h1, hb1, hst1]
        · intro hf
          rw [← h4]
          exact hb2 (by rw [hst1, hf])
    -- (2) actBody
    · intro st s rule ptext inner st' s' txt evs h
      simp only [actBody] at h
      cases rule
      case h1 =>
        simp [isRawText] at h
        exact ihH _ _ _ _ _ _ _ _ h
      case h2 =>
        simp [isRawText] at h
        exact ihH _ _ _ _ _ _ _ _ h
      case h3 =>
        simp [isRawText] at h
        exact ihH _ _ _ _ _ _ _ _ h
      case h4 =>
        simp [isRawText] at h
        exact ihH _ _ _ _ _ _ _ _ h
      case h5 =>
        simp [isRawText] at h
        exact ihH _ _ _ _ _ _ _ _ h
      case h6 =>
        simp [isRawText] at h
        exact ihH _ _ _ _ _ _ _ _ h
      case italic =>
        simp [isRawText] at h
        cases hg : getInnerElements t n st s inner.length inner with
        | none => rw [hg] at h; simp at h
        | some r =>
          obtain ⟨s1, gtext, e1, rem⟩ := r
          rw [hg] at h
          dsimp only at h
          have he1 := ihG _ _ _ _ _ _ _ _ hg
          cases hpk : st.peek <;> simp [hpk] at h
          · obtain ⟨h1, h2, h3, h4⟩ := h
            subst_vars
            exact ⟨hpk, fun _ => cleanEvents_append.mpr
              ⟨he1 hpk, cleanEvents_cons.mpr ⟨rfl, cleanEvents_nil⟩⟩⟩
          · obtain ⟨h1, h2, h3, h4⟩ := h
            subst_vars
            exact ⟨hpk, fun hf => Bool.noConfusion hf⟩
      case bold =>
        simp [isRawText] at h
        cases hg : getInnerElements t n st s inner.length inner with
        | none => rw [hg] at h; simp at h
        | some r =>
          obtain ⟨s1, gtext, e1, rem⟩ := r
          rw [hg] at h
          dsimp only at h
          have he1 := ihG _ _ _ _ _ _ _ _ hg
          cases hpk : st.peek <;> simp [hpk] at h
          · obtain ⟨h1, h2, h3, h4⟩ := h
            subst_vars
            exact ⟨hpk, fun _ => cleanEvents_append.mpr
              ⟨he1 hpk, cleanEvents_cons.mpr ⟨rfl, cleanEvents_nil⟩⟩⟩
          · obtain ⟨h1, h2, h3, h4⟩ := h
            subst_vars
            exact ⟨hpk, fun hf => Bool.noConfusion hf⟩
      case list_element =>
        simp [isRawText] at h
        cases hg : getInnerElements t n st s inner.length inner with
        | none => rw [hg] at h; simp at h
        | some r =>
          obtain ⟨s1, gtext, e1, rem⟩ := r
          rw [hg] at h
          dsimp only at h
          have he1 := ihG _ _ _ _ _ _ _ _ hg
          cases hpk : st.peek <;> simp [hpk] at h
          · obtain ⟨h1, h2, h3, h4⟩ := h
            subst_vars
            exact ⟨hpk, fun _ => cleanEvents_append.mpr
              ⟨he1 hpk, cleanEvents_cons.mpr ⟨rfl, cleanEvents_nil⟩⟩⟩
          · obtain ⟨h1, h2, h3, h4⟩ := h
            subst_vars
            exact ⟨hpk, fun hf => Bool.noConfusion hf⟩
      case paragraph =>
        simp [isRawText] at h
        cases hg : getInnerElements t n st s inner.length inner with
        | none => rw [hg] at h; simp at h
        | some r =>
          obtain ⟨s1, gtext, e1, rem⟩ := r
          rw [hg] at h
          dsimp only at h
          have he1 := ihG _ _ _ _ _ _ _ _ hg
          cases hpk : st.peek <;> simp [hpk] at h
          · obtain ⟨h1, h2, h3, h4⟩ := h
            subst_vars
            exact ⟨hpk, fun _ => cleanEvents_append.mpr
              ⟨he1 hpk, cleanEvents_cons.mpr ⟨rfl, cleanEvents_nil⟩⟩⟩
          · obtain ⟨h1, h2, h3, h4⟩ := h
            subst_vars
            exact ⟨hpk, fun hf => Bool.noConfusion hf⟩
      case link =>
        simp [isRawText] at h
        cases hg : getInnerElements t n st s (inner.length - 1) inner with
        | none => rw [hg] at h; simp at h
        | some r =>
          obtain ⟨s1, gtext, e1, rem⟩ := r
          rw [hg] at h
          dsimp only at h
          cases rem with
          | nil => simp at h
          | cons u us =>
            have he1 := ihG _ _ _ _ _ _ _ _ hg
            cases hpk : st.peek <;> simp [hpk] at h
            · obtain ⟨h1, h2, h3, h4⟩ := h
              subst_vars
              exact ⟨hpk, fun _ => cleanEvents_append.mpr
                ⟨he1 hpk, cleanEvents_cons.mpr ⟨rfl, cleanEvents_nil⟩⟩⟩
            · obtain ⟨h1, h2, h3, h4⟩ := h
              subst_vars
              exact ⟨hpk, fun hf => Bool.noConfusion hf⟩
      case reflink =>
        simp [isRawText] at h
        cases hg : getInnerElements t n st s (inner.length - 1) inner with
        | none => rw [hg] at h; simp at h
        | some r =>
          obtain ⟨s1, gtext, e1, rem⟩ := r
          rw [hg] at h
          dsimp only at h
          cases rem with
          | nil => simp at h
          | cons u us =>
            have he1 := ihG _ _ _ _ _ _ _ _ hg
            cases hpk : st.peek <;> simp [hpk] at h
            · obtain ⟨h1, h2, h3, h4⟩ := h
              subst_vars
              exact ⟨hpk, fun _ => cleanEvents_append.mpr
                ⟨he1 hpk, cleanEvents_cons.mpr ⟨rfl, cleanEvents_nil⟩⟩⟩
            · obtain ⟨h1, h2, h3, h4⟩ := h
              subst_vars
              exact ⟨hpk, fun hf => Bool.noConfusion hf⟩
      case refurl =>
        simp [isRawText] at h
        cases inner with
        | nil => simp at h
        | cons a r1 =>
          cases r1 with
          | nil => simp at h
          | cons b r2 =>
            cases r2 with
            | cons x xs => simp at h
            | nil =>
              dsimp only at h
              cases hpk : st.peek <;> simp [hpk] at h
              · obtain ⟨h1, h2, h3, h4⟩ := h
                subst_vars
                exact ⟨hpk, fun _ => cleanEvents_cons.mpr ⟨rfl, cleanEvents_nil⟩⟩
              · obtain ⟨h1, h2, h3, h4⟩ := h
                subst_vars
                exact ⟨hpk, fun hf => Bool.noConfusion hf⟩
      case inline_code =>
        simp [isRawText] at h
        cases inner with
        | nil => simp at h
        | cons c r1 =>
          cases r1 with
          | cons x xs => simp at h
          | nil =>
            dsimp only at h
            cases hpk : st.peek <;> simp [hpk] at h
            · obtain ⟨h1, h2, h3, h4⟩ := h
              subst_vars
              exact ⟨hpk, fun _ => cleanEvents_cons.mpr ⟨rfl, cleanEvents_nil⟩⟩
            · obtain ⟨h1, h2, h3, h4⟩ := h
              subst_vars
              exact ⟨hpk, fun hf => Bool.noConfusion hf⟩
      case horiz_sep =>
        simp [isRawText] at h
        cases hpk : st.peek <;> simp [hpk] at h
        · obtain ⟨h1, h2, h3, h4⟩ := h
          subst_vars
          exact ⟨hpk, fun _ => cleanEvents_cons.mpr ⟨rfl, cleanEvents_nil⟩⟩
        · obtain ⟨h1, h2, h3, h4⟩ := h
          subst_vars
          exact ⟨hpk, fun hf => Bool.noConfusion hf⟩
      case vertical_space =>
        simp [isRawText] at h
        cases hpk : st.peek <;> simp [hpk] at h
        · obtain ⟨h1, h2, h3, h4⟩ := h
          subst_vars
          exact ⟨hpk, fun _ => cleanEvents_cons.mpr ⟨rfl, cleanEvents_nil⟩⟩
        · obtain ⟨h1, h2, h3, h4⟩ := h
          subst_vars
          exact ⟨hpk, fun hf => Bool.noConfusion hf⟩
      case codeblock =>
        simp [isRawText] at h
        split at h
        · simp at h
        · cases hpk : st.peek <;> simp [hpk] at h
          · obtain ⟨h1, h2, h3, h4⟩ := h
            subst_vars
            exact ⟨hpk, fun _ => cleanEvents_cons.mpr ⟨rfl, cleanEvents_nil⟩⟩
          · obtain ⟨h1, h2, h3, h4⟩ := h
            subst_vars
            exact ⟨hpk, fun hf => Bool.noConfusion hf⟩
      case quote =>
        simp [isRawText] at h
        cases hq : actQuoteLines t n st s inner with
        | none => rw [hq] at h; simp at h
        | some r =>
          obtain ⟨st1, s1, lines, e1⟩ := r
          rw [hq] at h
          dsimp only at h
          obtain ⟨hq1, hq2⟩ := ihQ _ _ _ _ _ _ _ hq
          cases hpk : st1.peek <;> simp [hpk] at h
          · obtain ⟨h1, h2, h3, h4⟩ := h
            subst_vars
            refine ⟨hq1, fun hf => cleanEvents_append.mpr
              ⟨hq2 hf, cleanEvents_cons.mpr ⟨rfl, cleanEvents_nil⟩⟩⟩
          · obtain ⟨h1, h2, h3, h4⟩ := h
            subst_vars
            refine ⟨hq1, fun hf => ?_⟩
            rw [← hq1, hpk] at hf
            exact Bool.noConfusion hf
      case list =>
        simp [isRawText] at h
        cases hq : actListEls t n st s inner with
        | none => rw [hq] at h; simp at h
        | some r =>
          obtain ⟨st1, s1, lines, e1⟩ := r
          rw [hq] at h
          dsimp only at h
          obtain ⟨hq1, hq2⟩ := ihL _ _ _ _ _ _ _ hq
          cases hpk : st1.peek <;> simp [hpk] at h
          · obtain ⟨h1, h2, h3, h4⟩ := h
            subst_vars
            refine ⟨hq1, fun hf => cleanEvents_append.mpr
              ⟨hq2 hf, cleanEvents_cons.mpr ⟨rfl, cleanEvents_nil⟩⟩⟩
          · obtain ⟨h1, h2, h3, h4⟩ := h
            subst_vars
            refine ⟨hq1, fun hf => ?_⟩
            rw [← hq1, hpk] at hf
            exact Bool.noConfusion hf
      case quote_line =>
        simp [isRawText] at h
        cases hg : getInnerElements t n st s inner.length inner with
        | none => rw [hg] at h; simp at h
        | some r =>
          obtain ⟨s1, gtext, e1, rem⟩ := r
          rw [hg] at h
          simp at h
          obtain ⟨h1, h2, h3, h4⟩ := h
          subst_vars
          exact ⟨rfl, fun hf => ihG _ _ _ _ _ _ _ _ hg hf⟩
      case image =>
        simp [isRawText] at h
        cases inner with
        | nil => simp at h
        | cons c1 r1 =>
          cases r1 with
          | nil => simp at h
          | cons c2 r2 =>
            cases r2 with
            | nil =>
              dsimp only at h
              cases hpk : st.peek <;> simp [hpk] at h
              · obtain ⟨h1, h2, h3, h4⟩ := h
                subst_vars
                exact ⟨hpk, fun _ => cleanEvents_cons.mpr ⟨rfl, cleanEvents_nil⟩⟩
              · obtain ⟨h1, h2, h3, h4⟩ := h
                subst_vars
                exact ⟨hpk, fun hf => Bool.noConfusion hf⟩
            | cons third ts =>
              dsimp only at h
              cases hm : getMetadataLoop t n st s third.inner with
              | none => rw [hm] at h; simp at h
              | some r =>
                obtain ⟨s1, kvs1, e1⟩ := r
                rw [hm] at h
                dsimp only at h
                cases hpk : st.peek <;> simp [hpk] at h
                · obtain ⟨h1, h2, h3, h4⟩ := h
                  subst_vars
                  exact ⟨hpk, fun _ => cleanEvents_append.mpr
                    ⟨ihM _ _ _ _ _ _ hm hpk,
                     cleanEvents_cons.mpr ⟨rfl, cleanEvents_nil⟩⟩⟩
                · obtain ⟨h1, h2, h3, h4⟩ := h
                  subst_vars
                  exact ⟨hpk, fun hf => Bool.noConfusion hf⟩
      case paragraph_newline =>
        simp [isRawText] at h
        obtain ⟨h1, h2, h3, h4⟩ := h
        subst_vars
        exact ⟨rfl, fun _ => cleanEvents_nil⟩
      case file =>
        simp [isRawText] at h
        cases inner with
        | nil =>
          dsimp only at h
          cases hpk : st.peek <;> simp [actRaw, hpk] at h
          · obtain ⟨h1, h2, h3, h4⟩ := h
            subst_vars
            exact ⟨hpk, fun _ => cleanEvents_cons.mpr ⟨rfl, cleanEvents_nil⟩⟩
          · obtain ⟨h1, h2, h3, h4⟩ := h
            subst_vars
            exact ⟨hpk, fun hf => Bool.noConfusion hf⟩
        | cons c cs =>
          dsimp only at h
          exact ihC _ _ _ _ _ _ _ h
      case rich_txt =>
        simp [isRawText] at h
        cases inner with
        | nil =>
          dsimp only at h
          cases hpk : st.peek <;> simp [actRaw, hpk] at h
          · obtain ⟨h1, h2, h3, h4⟩ := h
            subst_vars
            exact ⟨hpk, fun _ => cleanEvents_cons.mpr ⟨rfl, cleanEvents_nil⟩⟩
          · obtain ⟨h1, h2, h3, h4⟩ := h
            subst_vars
            exact ⟨hpk, fun hf => Bool.noConfusion hf⟩
        | cons c cs =>
          dsimp only at h
          exact ihC _ _ _ _ _ _ _ h
      case quote_txt =>
        simp [isRawText] at h
        cases inner with
        | nil =>
          dsimp only at h
          cases hpk : st.peek <;> simp [actRaw, hpk] at h
          · obtain ⟨h1, h2, h3, h4⟩ := h
            subst_vars
            exact ⟨hpk, fun _ => cleanEvents_cons.mpr ⟨rfl, cleanEvents_nil⟩⟩
          · obtain ⟨h1, h2, h3, h4⟩ := h
            subst_vars
            exact ⟨hpk, fun hf => Bool.noConfusion hf⟩
        | cons c cs =>
          dsimp only at h
          exact ihC _ _ _ _ _ _ _ h
      case bold_text =>
        simp [isRawText] at h
        cases inner with
        | nil =>
          dsimp only at h
          cases hpk : st.peek <;> simp [actRaw, hpk] at h
          · obtain ⟨h1, h2, h3, h4⟩ := h
            subst_vars
            exact ⟨hpk, fun _ => cleanEvents_cons.mpr ⟨rfl, cleanEvents_nil⟩⟩
          · obtain ⟨h1, h2, h3, h4⟩ := h
            subst_vars
            exact ⟨hpk, fun hf => Bool.noConfusion hf⟩
        | cons c cs =>
          dsimp only at h
          exact ihC _ _ _ _ _ _ _ h
      case italic_text =>
        simp [isRawText] at h
        cases inner with
        | nil =>
          dsimp only at h
          cases hpk : st.peek <;> simp [actRaw, hpk] at h
          · obtain ⟨h1, h2, h3, h4⟩ := h
            subst_vars
            exact ⟨hpk, fun _ => cleanEvents_cons.mpr ⟨rfl, cleanEvents_nil⟩⟩
          · obtain ⟨h1, h2, h3, h4⟩ := h
            subst_vars
            exact ⟨hpk, fun hf => Bool.noConfusion hf⟩
        | cons c cs =>
          dsimp only at h
          exact ihC _ _ _ _ _ _ _ h
      case EOI =>
        simp [isRawText] at h
        obtain ⟨h1, h2, h3, h4⟩ := h
        subst_vars
        exact ⟨rfl, fun _ => cleanEvents_nil⟩
      case slug =>
        simp [isRawText] at h
      case url =>
        simp [isRawText] at h
      case img_tags =>
        simp [isRawText] at h
      case img_tag =>
        simp [isRawText] at h
      case comment =>
        simp [isRawText] at h
      case strikethrough =>
        simp [isRawText] at h
      case text =>
        simp [isRawText, actRaw] at h
        cases hpk : st.peek <;> simp [hpk] at h
        · obtain ⟨h1, h2, h3, h4⟩ := h
          subst_vars
          exact ⟨hpk, fun _ => cleanEvents_cons.mpr ⟨rfl, cleanEvents_nil⟩⟩
        · obtain ⟨h1, h2, h3, h4⟩ := h
          subst_vars
          exact ⟨hpk, fun hf => Bool.noConfusion hf⟩
      case link_text =>
        simp [isRawText, actRaw] at h
        cases hpk : st.peek <;> simp [hpk] at h
        · obtain ⟨h1, h2, h3, h4⟩ := h
          subst_vars
          exact ⟨hpk, fun _ => cleanEvents_cons.mpr ⟨rfl, cleanEvents_nil⟩⟩
        · obtain ⟨h1, h2, h3, h4⟩ := h
          subst_vars
          exact ⟨hpk, fun hf => Bool.noConfusion hf⟩
      case code =>
        simp [isRawText, actRaw] at h
        cases hpk : st.peek <;> simp [hpk] at h
        · obtain ⟨h1, h2, h3, h4⟩ := h
          subst_vars
          exact ⟨hpk, fun _ => cleanEvents_cons.mpr ⟨rfl, cleanEvents_nil⟩⟩
        · obtain ⟨h1, h2, h3, h4⟩ := h
          subst_vars
          exact ⟨hpk, fun hf => Bool.noConfusion hf⟩
      case img_tag_key =>
        simp [isRawText, actRaw] at h
        cases hpk : st.peek <;> simp [hpk] at h
        · obtain ⟨h1, h2, h3, h4⟩ := h
          subst_vars
          exact ⟨hpk, fun _ => cleanEvents_cons.mpr ⟨rfl, cleanEvents_nil⟩⟩
        · obtain ⟨h1, h2, h3, h4⟩ := h
          subst_vars
          exact ⟨hpk, fun hf => Bool.noConfusion hf⟩
      case img_tag_val =>
        simp [isRawText, actRaw] at h
        cases hpk : st.peek <;> simp [hpk] at h
        · obtain ⟨h1, h2, h3, h4⟩ := h
          subst_vars
          exact ⟨hpk, fun _ => cleanEvents_cons.mpr ⟨rfl, cleanEvents_nil⟩⟩
        · obtain ⟨h1, h2, h3, h4⟩ := h
          subst_vars
          exact ⟨hpk, fun hf => Bool.noConfusion hf⟩
    -- (3) headerArm
    · intro st s level inner st' s' txt evs h
      simp only [headerArm] at h
      cases inner with
      | nil => simp at h
      | cons child rest =>
        cases rest with
        | cons c2 cs => simp at h
        | nil =>
          dsimp only at h
          cases ha : actOnPair t n { st with peek := false } s child with
          | none => rw [ha] at h; simp at h
          | some r =>
            obtain ⟨stc, s1, htext, e1⟩ := r
            rw [ha] at h
            dsimp only at h
            have he1 : cleanEvents e1 := (ihP _ _ _ _ _ _ _ ha).2 rfl
            cases hpk : st.peek <;> simp [hpk] at h
            · obtain ⟨h1, h2, h3, h4⟩ := h
              refine ⟨by rw [← h1]; exact hpk, fun _ => ?_⟩
              rw [← h4]
              exact cleanEvents_append.mpr ⟨he1,
                cleanEvents_cons.mpr ⟨rfl, cleanEvents_nil⟩⟩
            · obtain ⟨h1, h2, h3, h4⟩ := h
              exact ⟨by rw [← h1]; exact hpk, fun hf => Bool.noConfusion hf⟩
    -- (4) getInnerElements
    · intro st s nb inner s' txt evs rem h
      simp only [getInnerElements] at h
      split at h
      · cases hi : actInnerN t n st s nb inner with
        | none => rw [hi] at h; simp at h
        | some r =>
          obtain ⟨st1, s1, txts, evs1, rem1⟩ := r
          rw [hi] at h
          simp at h
          obtain ⟨h1, h2, h3, h4⟩ := h
          intro hf
          rw [← h3]
          exact (ihI _ _ _ _ _ _ _ _ _ hi).2 hf
      · simp at h
    -- (5) actInnerN
    · intro st s nb inner st' s' txts evs rem h
      simp only [actInnerN] at h
      cases nb with
      | zero =>
        simp at h
        obtain ⟨h1, h2, h3, h4, h5⟩ := h
        subst_vars
        exact ⟨rfl, fun _ => cleanEvents_nil⟩
      | succ nb =>
        cases inner with
        | nil => simp at h
        | cons p rest =>
          dsimp only at h
          cases ha : actOnPair t n st s p with
          | none => rw [ha] at h; simp at h
          | some r =>
            obtain ⟨st1, s1, txt1, e1⟩ := r
            rw [ha] at h
            dsimp only at h
            cases hi : actInnerN t n st1 s1 nb rest with
            | none => rw [hi] at h; simp at h
            | some r2 =>
              obtain ⟨st2, s2, txts2, e2, rem2⟩ := r2
              rw [hi] at h
              simp at h
              obtain ⟨h1, h2, h3, h4, h5⟩ := h
              subst_vars
              obtain ⟨hp1, hp2⟩ := ihP _ _ _ _ _ _ _ ha
              obtain ⟨hi1, hi2⟩ := ihI _ _ _ _ _ _ _ _ _ hi
              refine ⟨by rw [hi1, hp1], fun hf =>
                cleanEvents_append.mpr ⟨hp2 hf, hi2 (by rw [hp1, hf])⟩⟩
    -- (6) actQuoteLines
    · intro st s inner st' s' txts evs h
      simp only [actQuoteLines] at h
      cases inner with
      | nil =>
        simp at h
        obtain ⟨h1, h2, h3, h4⟩ := h
        subst_vars
        exact ⟨rfl, fun _ => cleanEvents_nil⟩
      | cons line rest =>
        dsimp only at h
        split at h
        · cases ha : actOnPair t n st s line with
          | none => rw [ha] at h; simp at h
          | some r =>
            obtain ⟨st1, s1, txt1, e1⟩ := r
            rw [ha] at h
            dsimp only at h
            cases hq : actQuoteLines t n st1 s1 rest with
            | none => rw [hq] at h; simp at h
            | some r2 =>
              obtain ⟨st2, s2, txts2, e2⟩ := r2
              rw [hq] at h
              simp at h
              obtain ⟨h1, h2, h3, h4⟩ := h
              subst_vars
              obtain ⟨hp1, hp2⟩ := ihP _ _ _ _ _ _ _ ha
              obtain ⟨hq1, hq2⟩ := ihQ _ _ _ _ _ _ _ hq
              refine ⟨by rw [hq1, hp1], fun hf =>
                cleanEvents_append.mpr ⟨hp2 hf, hq2 (by rw [hp1, hf])⟩⟩
        · simp at h
    -- (7) actListEls
    · intro st s inner st' s' txts evs h
      simp only [actListEls] at h
      cases inner with
      | nil =>
        simp at h
        obtain ⟨h1, h2, h3, h4⟩ := h
        subst_vars
        exact ⟨rfl, fun _ => cleanEvents_nil⟩
      | cons el rest =>
        dsimp only at h
        cases ha : actOnPair t n st s el with
        | none => rw [ha] at h; simp at h
        | some r =>
          obtain ⟨st1, s1, txt1, e1⟩ := r
          rw [ha] at h
          dsimp only at h
          cases hl : actListEls t n st1 s1 rest with
          | none => rw [hl] at h; simp at h
          | some r2 =>
            obtain ⟨st2, s2, txts2, e2⟩ := r2
            rw [hl] at h
            simp at h
            obtain ⟨h1, h2, h3, h4⟩ := h
            subst_vars
            obtain ⟨hp1, hp2⟩ := ihP _ _ _ _ _ _ _ ha
            obtain ⟨hl1, hl2⟩ := ihL _ _ _ _ _ _ _ hl
            refine ⟨by rw [hl1, hp1], fun hf =>
              cleanEvents_append.mpr ⟨hp2 hf, hl2 (by rw [hp1, hf])⟩⟩
    -- (8) actChildren
    · intro st s inner st' s' txt evs h
      simp only [actChildren] at h
      cases inner with
      | nil =>
        simp at h
        obtain ⟨h1, h2, h3, h4⟩ := h
        subst_vars
        exact ⟨rfl, fun _ => cleanEvents_nil⟩
      | cons c rest =>
        dsimp only at h
        cases ha : actOnPair t n st s c with
        | none => rw [ha] at h; simp at h
        | some r =>
          obtain ⟨st1, s1, txt1, e1⟩ := r
          rw [ha] at h
          dsimp only at h
          cases hc : actChildren t n st1 s1 rest with
          | none => rw [hc] at h; simp at h
          | some r2 =>
            obtain ⟨st2, s2, txt2, e2⟩ := r2
            rw [hc] at h
            simp at h
            obtain ⟨h1, h2, h3, h4⟩ := h
            subst_vars
            obtain ⟨hp1, hp2⟩ := ihP _ _ _ _ _ _ _ ha
            obtain ⟨hc1, hc2⟩ := ihC _ _ _ _ _ _ _ hc
            refine ⟨by rw [hc1, hp1], fun hf =>
              cleanEvents_append.mpr ⟨hp2 hf, hc2 (by rw [hp1, hf])⟩⟩
    -- (9) getMetadataLoop
    · intro st s kvs s' kvlist evs h
      simp only [getMetadataLoop] at h
      cases kvs with
      | nil =>
        simp at h
        obtain ⟨h1, h2, h3⟩ := h
        subst_vars
        exact fun _ => cleanEvents_nil
      | cons kv rest =>
        dsimp only at h
        cases hkv : kv.inner with
        | nil =>
          rw [hkv] at h
          simp at h
          obtain ⟨h1, h2, h3⟩ := h
          subst_vars
          exact fun _ => cleanEvents_nil
        | cons key tail0 =>
          cases tail0 with
          | nil =>
            rw [hkv] at h
            simp at h
            obtain ⟨h1, h2, h3⟩ := h
            subst_vars
            exact fun _ => cleanEvents_nil
          | cons value tail =>
            rw [hkv] at h
            dsimp only at h
            cases ha : actOnPair t n st s key with
            | none => rw [ha] at h; simp at h
            | some r =>
              obtain ⟨stk, s1, tk, e1⟩ := r
              rw [ha] at h
              dsimp only at h
              cases hv : actOnPair t n stk s1 value with
              | none => rw [hv] at h; simp at h
              | some r2 =>
                obtain ⟨stv, s2, tv, e2⟩ := r2
                rw [hv] at h
                dsimp only at h
                cases hm : getMetadataLoop t n st s2 rest with
                | none => rw [hm] at h; simp at h
                | some r3 =>
                  obtain ⟨s3, kvrest, e3⟩ := r3
                  rw [hm] at h
                  simp at h
                  obtain ⟨h1, h2, h3⟩ := h
                  subst_vars
                  intro hf
                  obtain ⟨hp1, hp2⟩ := ihP _ _ _ _ _ _ _ ha
                  obtain ⟨hv1, hv2⟩ := ihP _ _ _ _ _ _ _ hv
                  refine cleanEvents_append.mpr ⟨hp2 hf, cleanEvents_append.mpr
                    ⟨hv2 (by rw [hp1, hf]), ihM _ _ _ _ _ _ hm hf⟩⟩

/-- Claim C1 counterexample: during the first (peek) traversal of the header
document "# text", the engine invokes the transform-text hook —
`get_rich_text` forces the transform half of the contract on the label
subtree — and this transform-hook invocation happens before the header
peek-hook invocation completes the peek phase. -/
theorem c1_peek_pass_invokes_transform_counterexample :
    actOnPair (defaultTransformer : Transformer Unit) 99 ⟨true, false⟩ () h1Tree
      = some (⟨true, false⟩, (), "",
          [.transformText "text", .peekHeader 1 "text"])
    ∧ (Event.transformText "text").isTransformHook = true
    ∧ (Event.transformText "text").isPeekHook = false :=
  ⟨by decide, rfl, rfl⟩

/-- Claim C1 amended: the first traversal invokes transform hooks as well as
peek hooks (rich-text argument resolution forces the transform half), so hook
phases are not strictly separated; however, the second traversal invokes only
transform hooks, and at the entry point the complete first traversal of the
whole document still happens before the second traversal begins — the entry
point's event trace is exactly the peek-pass events followed by the
transform-pass events. -/
theorem c1_amended_peek_pass_ordering :
    (∀ (σ : Type) (t : Transformer σ) (fuel : Nat) (st : ParseState) (s : σ)
        (p : Pair) (st' : ParseState) (s' : σ) (txt : String) (evs : List Event),
        st.peek = false →
        actOnPair t fuel st s p = some (st', s', txt, evs) →
        cleanEvents evs)
    ∧ (∀ (σ : Type) (parse : String → Except Errcode (List Pair)) (fuel : Nat)
        (input : String) (t : Transformer σ) (s : σ)
        (r : σ × String × List Event),
        transformMarkdownString parse fuel input t s = some (.ok r) →
        ∃ (parsed : Pair) (rest : List Pair)
          (r1 r2 : ParseState × σ × String × List Event),
          parse input = .ok (parsed :: rest)
          ∧ actOnPair t fuel ⟨true, false⟩ s parsed = some r1
          ∧ actOnPair t fuel ⟨false, false⟩ (t.finished r1.2.1 true).1 parsed = some r2
          ∧ r.2.2 = r1.2.2.2 ++ [.finishedEv true] ++ r2.2.2.2 ++ [.finishedEv false]
          ∧ cleanEvents r2.2.2.2) := by
  constructor
  · intro σ t fuel st s p st' s' txt evs hf h
    exact ((peekInvariant t fuel).1 st s p st' s' txt evs h).2 hf
  · intro σ parse fuel input t s r h
    unfold transformMarkdownString at h
    cases hp : parse input with
    | error e => rw [hp] at h; simp at h
    | ok pairs =>
      rw [hp] at h
      cases pairs with
      | nil => simp at h
      | cons parsed rest =>
        dsimp only at h
        cases h1 : actOnPair t fuel ⟨true, false⟩ s parsed with
        | none => rw [h1] at h; simp at h
        | some r1 =>
          obtain ⟨st1, s1, o1, e1⟩ := r1
          rw [h1] at h
          dsimp only at h
          cases h2 : actOnPair t fuel ⟨false, false⟩ (t.finished s1 true).1 parsed with
          | none => rw [h2] at h; simp at h
          | some r2 =>
            obtain ⟨st2, s2, o2, e2⟩ := r2
            rw [h2] at h
            dsimp only at h
            simp only [Option.some.injEq, Except.ok.injEq] at h
            refine ⟨parsed, rest, (st1, s1, o1, e1), (st2, s2, o2, e2), rfl, h1, h2,
              ?_, ?_⟩
            · rw [← h]
            · exact ((peekInvariant t fuel).1 _ _ _ _ _ _ _ h2).2 rfl

/-- Witness for C1 at the empty document with the default renderer. -/
theorem c1_amended_peek_pass_ordering_witness :
    cleanEvents ([] : List Event)
    ∧ ∃ (parsed : Pair) (rest : List Pair)
        (r1 r2 : ParseState × Unit × String × List Event),
        specParse "" = .ok (parsed :: rest)
        ∧ actOnPair (defaultTransformer : Transformer Unit) 9 ⟨true, false⟩ ()
            parsed = some r1
        ∧ actOnPair (defaultTransformer : Transformer Unit) 9 ⟨false, false⟩
            ((defaultTransformer : Transformer Unit).finished r1.2.1 true).1
            parsed = some r2
        ∧ ([Event.finishedEv true, Event.finishedEv false] : List Event)
            = r1.2.2.2 ++ [.finishedEv true] ++ r2.2.2.2 ++ [.finishedEv false]
        ∧ cleanEvents r2.2.2.2 :=
  ⟨c1_amended_peek_pass_ordering.1 Unit defaultTransformer 9 ⟨false, false⟩ ()
      emptyTree ⟨false, false⟩ () "" [] rfl (by decide),
   c1_amended_peek_pass_ordering.2 Unit specParse 9 "" defaultTransformer ()
      ((), "", [Event.finishedEv true, Event.finishedEv false])
      (transformMarkdownString_eval specParse 9 "" defaultTransformer () emptyTree []
        ⟨true, false⟩ () "" [] ⟨false, false⟩ () "" [] rfl rfl rfl)⟩

end Mdtrans
